import Mathlib

/-
  A verification development for the schema-challenge validation library
  (`lib/types.js`).  The JavaScript classes ValidationError, Validator,
  StringType, IntegerType, ISO8601Type, UUIDType, ConstantType, SchemaType
  and EventType are shallowly embedded as Lean definitions below; theorems
  about the embedding settle the behavioural claims of the specification.

  Modelling conventions:
  * JavaScript runtime values are modelled by `JSValue`.  Numbers are
    modelled as integers (no claim involves fractional numbers, NaN or
    infinities); symbols, functions and boxed primitives are not modelled.
  * Exception control flow is modelled by `Except JSErr`: a thrown
    ValidationError becomes `.error (.validation e)`, the TypeError raised
    by a property access on null/undefined becomes `.error .typeError`,
    and the RangeError raised by `Date.prototype.toISOString` on an
    invalid date becomes `.error .rangeError`.
  * Host functions used by the source (`lodash.isString`, `Number.isInteger`,
    the UUID regular expression, `new Date`, `Date.prototype.toISOString`)
    are embedded following their ECMAScript semantics, restricted to the
    value space of `JSValue`; the comments on each definition state the
    exact scope of the embedding.
-/

/- JavaScript runtime values. -/

inductive JSValue where
  | undef
  | null
  | bool (b : Bool)
  | num (n : Int)
  | str (s : String)
  | obj (fields : List (String × JSValue))

/- JavaScript strict equality (`===` / `!==`).  On primitives it is value
equality; on objects it is reference equality, and two distinct object
values appearing here (a freshly parsed input versus a validator field)
are never the same reference, so the object case is `false`. -/
def jsStrictEq : JSValue → JSValue → Bool
  | .undef, .undef => true
  | .null, .null => true
  | .bool a, .bool b => a == b
  | .num a, .num b => a == b
  | .str a, .str b => a == b
  | _, _ => false

/- JavaScript truthiness (`Boolean(v)`), used by the `description || ''`
default in the Validator constructor. -/
def jsTruthy : JSValue → Bool
  | .undef => false
  | .null => false
  | .bool b => b
  | .num n => !(n == 0)
  | .str s => !(s == "")
  | .obj _ => true

/- The test `value === null || value === undefined` of `Validator.validate`. -/
def jsAbsent : JSValue → Bool
  | .null => true
  | .undef => true
  | _ => false

/- Splitting a string at every occurrence of a separator character
(the shape `String.split` would give; written over the character list). -/
def strSplit (sep : Char) (s : String) : List String :=
  (s.data.foldr
    (fun c groups =>
      match groups with
      | g :: gs => if c = sep then [] :: g :: gs else (c :: g) :: gs
      | [] => [[c]])
    [[]]).map String.mk

/- A canonical array-index string: a nonempty digit sequence with no
leading zero (so "0" is an index but "00" and "01" are not). -/
def canonicalIndex? (cs : List Char) : Option Nat :=
  match cs with
  | [] => none
  | ['0'] => some 0
  | c :: _ =>
      if c = '0' then none
      else if cs.all Char.isDigit then
        some (cs.foldl (fun a ch => a * 10 + (ch.toNat - 48)) 0)
      else none

/- Property access on a string primitive: `s["length"]` is the length,
`s[i]` for a canonical integer index is the one-character string, and
every other key reads as undefined. -/
def strCharGet (s : String) (k : String) : JSValue :=
  if k = "length" then .num (s.length : Int)
  else
    match canonicalIndex? k.data with
    | some i =>
        match s.data.get? i with
        | some c => .str (String.singleton c)
        | none => .undef
    | none => (.undef : JSValue)

/- ValidationError: an append-only ordered list of failure messages
(`this.messages = []`, `addFieldError` pushes, `getFieldErrors` reads). -/
structure ValidationError where
  messages : List String

def ValidationError.addFieldError (e : ValidationError) (m : String) : ValidationError :=
  ValidationError.mk (e.messages ++ [m])

def ValidationError.getFieldErrors (e : ValidationError) : List String :=
  e.messages

/- The exceptions observable in this library: thrown ValidationError
values, the TypeError of a property access on null/undefined, and the
RangeError of `toISOString` on an invalid date. -/
inductive JSErr where
  | validation (err : ValidationError)
  | typeError
  | rangeError

/- Property access `value[field]`: throws TypeError on null/undefined,
reads string indices and `length` on string primitives, reads own
properties (or undefined) on objects, and reads undefined on the
remaining primitives. -/
def jsGet : JSValue → String → Except JSErr JSValue
  | .undef, _ => .error .typeError
  | .null, _ => .error .typeError
  | .str s, k => .ok (strCharGet s k)
  | .obj l, k => .ok ((List.lookup k l).getD .undef)
  | .bool _, _ => .ok .undef
  | .num _, _ => .ok (.undef : JSValue)

/- The key sequence of `for (const field in value)`: own enumerable keys
in insertion order for objects (the schemas and inputs in this system use
identifier keys, so the integer-key reordering of JavaScript objects does
not arise), the character indices "0".."n-1" for string primitives, and
nothing for the other primitives including null and undefined. -/
def jsForInKeys : JSValue → List String
  | .obj l => l.map Prod.fst
  | .str s => (List.range s.length).map (fun i => toString i)
  | _ => []

/- The UUID_FORMAT regular expression:
8-4-4-4-12 case-insensitive hex groups, version digit 1-5, variant 8/9/a/b. -/

def isHexDigit (c : Char) : Bool :=
  c.isDigit || ('a' ≤ c && c ≤ 'f') || ('A' ≤ c && c ≤ 'F')

def uuidFormatTest (s : String) : Bool :=
  match strSplit '-' s with
  | [a, b, c, d, e] =>
      a.length == 8 && b.length == 4 && c.length == 4 && d.length == 4 && e.length == 12 &&
      a.data.all isHexDigit && b.data.all isHexDigit && c.data.all isHexDigit &&
      d.data.all isHexDigit && e.data.all isHexDigit &&
      (match c.data with
       | v :: _ => '1' ≤ v && v ≤ '5'
       | [] => false) &&
      (match d.data with
       | n :: _ => n == '8' || n == '9' || n == 'a' || n == 'b' || n == 'A' || n == 'B'
       | [] => false)
  | _ => false

/- Calendar arithmetic for the embedded `Date`: proleptic Gregorian
calendar, days relative to 1970-01-01, following the standard
era/year-of-era civil-date algorithms. -/

def isLeapYear (y : Int) : Bool :=
  (y % 4 == 0 && !(y % 100 == 0)) || y % 400 == 0

def daysInMonth (y : Int) (m : Nat) : Nat :=
  match m with
  | 1 => 31
  | 2 => if isLeapYear y then 29 else 28
  | 3 => 31
  | 4 => 30
  | 5 => 31
  | 6 => 30
  | 7 => 31
  | 8 => 31
  | 9 => 30
  | 10 => 31
  | 11 => 30
  | 12 => 31
  | _ => 0

def daysFromCivil (y : Int) (m d : Nat) : Int :=
  let yAdj : Int := if m ≤ 2 then y - 1 else y
  let era : Int := Int.ediv yAdj 400
  let yoe : Nat := (yAdj - era * 400).toNat
  let mp : Nat := if 2 < m then m - 3 else m + 9
  let doy : Nat := (153 * mp + 2) / 5 + d - 1
  let doe : Nat := yoe * 365 + yoe / 4 - yoe / 100 + doy
  era * 146097 + (doe : Int) - 719468

def civilFromDays (z0 : Int) : Int × Nat × Nat :=
  let z : Int := z0 + 719468
  let era : Int := Int.ediv z 146097
  let doe : Nat := (z - era * 146097).toNat
  let yoe : Nat := (doe - doe / 1460 + doe / 36524 - doe / 146096) / 365
  let y : Int := (yoe : Int) + era * 400
  let doy : Nat := doe - (365 * yoe + yoe / 4 - yoe / 100)
  let mp : Nat := (5 * doy + 2) / 153
  let d : Nat := doy - (153 * mp + 2) / 5 + 1
  let m : Nat := if mp < 10 then mp + 3 else mp - 9
  (if m ≤ 2 then y + 1 else y, m, d)

def padNat (width n : Nat) : String :=
  let s := toString n
  if s.length < width then String.mk (List.replicate (width - s.length) '0') ++ s else s

/- Year field of `toISOString`: four digits for years 0..9999, the
expanded six-digit signed form otherwise (ECMAScript 21.4.4.36). -/
def yearToString (y : Int) : String :=
  if 0 ≤ y ∧ y ≤ 9999 then padNat 4 y.toNat
  else if 0 < y then "+" ++ padNat 6 y.toNat
  else "-" ++ padNat 6 (-y).toNat

/- `Date.prototype.toISOString` on a valid time value (milliseconds since
the epoch): the canonical `YYYY-MM-DDTHH:mm:ss.sssZ` UTC form. -/
def toISOString (t : Int) : String :=
  let day : Int := Int.ediv t 86400000
  let ms : Nat := (t - day * 86400000).toNat
  let c := civilFromDays day
  yearToString c.1 ++ "-" ++ padNat 2 c.2.1 ++ "-" ++ padNat 2 c.2.2 ++ "T" ++
    padNat 2 (ms / 3600000) ++ ":" ++ padNat 2 (ms / 60000 % 60) ++ ":" ++
    padNat 2 (ms / 1000 % 60) ++ "." ++ padNat 3 (ms % 1000) ++ "Z"

/- ECMAScript time values are limited to 8.64e15 milliseconds around the
epoch; anything beyond is an invalid date (NaN). -/
def timeClip (t : Int) : Option Int :=
  if t.natAbs ≤ 8640000000000000 then some t else none

/- Parsing pieces of the ECMAScript Date Time String Format. -/

def parseNatLen (s : String) (len : Nat) : Option Nat :=
  if s.length == len && s.data.all Char.isDigit then
    some (s.data.foldl (fun a c => a * 10 + (c.toNat - 48)) 0)
  else none

def parseYearRest (comps : List String) : Option (Int × List String) :=
  match comps with
  | [] => none
  | first :: rest =>
      if first.data.head? = some '+' then
        match parseNatLen (first.drop 1) 6 with
        | some y => some ((y : Int), rest)
        | none => none
      else
        match parseNatLen first 4 with
        | some y => some ((y : Int), rest)
        | none => none

/- The date part `YYYY[-MM[-DD]]`, with expanded signed years; month and
day fields are range-checked (out-of-range fields give an invalid date). -/
def parseDatePart (dstr : String) : Option (Int × Nat × Nat) :=
  let comps := strSplit '-' dstr
  let signed : Option (Int × List String) :=
    match comps with
    | "" :: y :: rest =>
        match parseNatLen y 6 with
        | some n => if n == 0 then none else some (-(n : Int), rest)
        | none => none
    | _ => parseYearRest comps
  match signed with
  | none => none
  | some (y, rest) =>
      match rest with
      | [] => some (y, 1, 1)
      | [mo] =>
          match parseNatLen mo 2 with
          | some m => if 1 ≤ m ∧ m ≤ 12 then some (y, m, 1) else none
          | none => none
      | [mo, dd] =>
          match parseNatLen mo 2, parseNatLen dd 2 with
          | some m, some d =>
              if 1 ≤ m ∧ m ≤ 12 ∧ 1 ≤ d ∧ d ≤ daysInMonth y m then some (y, m, d) else none
          | _, _ => none
      | _ => none

def parseSeconds (s : String) : Option Nat :=
  match strSplit '.' s with
  | [ss] =>
      match parseNatLen ss 2 with
      | some v => if v ≤ 59 then some (v * 1000) else none
      | none => none
  | [ss, frac] =>
      match parseNatLen ss 2, parseNatLen frac 3 with
      | some v, some f => if v ≤ 59 then some (v * 1000 + f) else none
      | _, _ => none
  | _ => none

/- The clock `HH:mm[:ss[.sss]]` as milliseconds within the day. -/
def parseClock (t : String) : Option Nat :=
  match strSplit ':' t with
  | [h, m] =>
      match parseNatLen h 2, parseNatLen m 2 with
      | some hv, some mv =>
          if hv ≤ 23 ∧ mv ≤ 59 then some (hv * 3600000 + mv * 60000) else none
      | _, _ => none
  | [h, m, s] =>
      match parseNatLen h 2, parseNatLen m 2, parseSeconds s with
      | some hv, some mv, some sv =>
          if hv ≤ 23 ∧ mv ≤ 59 then some (hv * 3600000 + mv * 60000 + sv) else none
      | _, _, _ => none
  | _ => none

def parseOffsetMs (o : String) : Option Int :=
  match strSplit ':' o with
  | [h, m] =>
      match parseNatLen h 2, parseNatLen m 2 with
      | some hv, some mv =>
          if hv ≤ 23 ∧ mv ≤ 59 then some (((hv * 60 + mv : Nat) : Int) * 60000) else none
      | _, _ => none
  | _ => none

/- The time part with its optional offset.  A trailing `Z` is UTC; `+HH:mm`
and `-HH:mm` are fixed offsets.  A date-time without an offset is local
time in ECMAScript; the host time zone is modelled as UTC here (no claim
depends on a non-UTC host). -/
def parseTimePart (t : String) : Option Int :=
  if t.data.getLast? = some 'Z' then
    match parseClock (t.dropRight 1) with
    | some ms => some (ms : Int)
    | none => none
  else
    match strSplit '+' t with
    | [time, off] =>
        match parseClock time, parseOffsetMs off with
        | some ms, some offMs => some ((ms : Int) - offMs)
        | _, _ => none
    | [_] =>
        match strSplit '-' t with
        | [time, off] =>
            match parseClock time, parseOffsetMs off with
            | some ms, some offMs => some ((ms : Int) + offMs)
            | _, _ => none
        | [time] =>
            match parseClock time with
            | some ms => some (ms : Int)
            | none => none
        | _ => none
    | _ => none

/- `Date.parse` restricted to the ECMAScript Date Time String Format,
the only string format the specification of `new Date(string)` defines
(implementation-specific fallback formats are outside the model; the
canonical ISO strings this library validates are covered exactly). -/
def parseDateString (s : String) : Option Int :=
  match strSplit 'T' s with
  | [d] =>
      match parseDatePart d with
      | some (y, m, dd) => timeClip (daysFromCivil y m dd * 86400000)
      | none => none
  | [d, t] =>
      match parseDatePart d, parseTimePart t with
      | some (y, m, dd), some ms => timeClip (daysFromCivil y m dd * 86400000 + ms)
      | _, _ => none
  | _ => none

/- `new Date(value)`: `some t` is a valid Date holding time value `t`,
`none` is an Invalid Date (whose `toISOString` throws a RangeError).
Numbers are clipped time values; strings are parsed; booleans and null
convert through ToNumber; undefined gives NaN; a plain object converts
through ToPrimitive to an unparseable string. -/
def jsNewDate : JSValue → Option Int
  | .num n => timeClip n
  | .str s => parseDateString s
  | .bool b => timeClip (if b then 1 else 0)
  | .null => timeClip 0
  | .undef => none
  | .obj _ => none

/- The validator hierarchy.  `prim` covers the base Validator and the four
primitive subclasses (which share the inherited two-phase `validate` and
`getContract` and differ only in their `validateType` override, selected
by `kind`, and in the `_type` name fixed by their constructors).
`constant` is ConstantType, which overrides both `validate` (strict
equality against the stored value, its `_description`) and `getContract`,
and whose `_type`/`_required` fields are never read.  `schema` is
SchemaType, which overrides both as well; its `_type "Schema"`,
`_description ''` and `_required true` are likewise never read.
`Fields` is the ordered own-property mapping of a schema object. -/

inductive PrimKind where
  | baseK
  | stringK
  | integerK
  | iso8601K
  | uuidK

mutual
inductive JSValidator where
  | prim (kind : PrimKind) (type : String) (description : String) (required : Bool)
  | constant (value : JSValue)
  | schema (fields : Fields)

inductive Fields where
  | nil
  | cons (name : String) (validator : JSValidator) (rest : Fields)
end

/- The `validateType` overrides.  The base Validator returns true;
StringType is `_.isString` (string primitives; boxed String objects are
outside the model); IntegerType is `Number.isInteger` (true exactly on
number values, all of which are integral in the model); UUIDType is
`_.isString(value) && UUID_FORMAT.test(value)`; ISO8601Type parses the
value as a Date and compares `toISOString()` strictly against the value,
which raises a RangeError when the parsed date is invalid. -/
def validateType (kind : PrimKind) (value : JSValue) : Except JSErr Bool :=
  match kind with
  | .baseK => .ok true
  | .stringK =>
      .ok (match value with
           | .str _ => true
           | _ => false)
  | .integerK =>
      .ok (match value with
           | .num _ => true
           | _ => false)
  | .uuidK =>
      .ok (match value with
           | .str s => uuidFormatTest s
           | _ => false)
  | .iso8601K =>
      match jsNewDate value with
      | none => .error .rangeError
      | some t => .ok (jsStrictEq (.str (toISOString t)) value)

/- The mutable state of one `SchemaType.validate` call: the keys assigned
into the local `validated` object (the rogue-field scan only tests key
membership, so the stored booleans are not tracked) and the lazily
created accumulating `returnErrors`. -/
structure LoopState where
  validated : List String
  returnErrors : Option ValidationError

/- The rogue-field scan of `SchemaType.validate`: every enumerated input
key not assigned in `validated` appends `"<field>: unexpected field"`,
creating the accumulating error if needed. -/
def rogueScan : List String → LoopState → LoopState
  | [], st => st
  | field :: rest, st =>
      let st' : LoopState :=
        if field ∈ st.validated then st
        else
          let re : ValidationError :=
            match st.returnErrors with
            | some r => r
            | none => ValidationError.mk []
          LoopState.mk st.validated (some (re.addFieldError (field ++ ": unexpected field")))
      rogueScan rest st'

mutual
/- `validate` of each class.  The `prim` branch is the inherited
`Validator.validate` (presence check, then `validateType`); the
`constant` branch is `ConstantType.validate`; the `schema` branch is
`SchemaType.validate`: run the per-field loop, then the rogue-field scan,
then throw the accumulating error iff it was created. -/
def validate : JSValidator → JSValue → Except JSErr Bool
  | .prim kind _ _ required, value =>
      if jsAbsent value then
        if required then
          .error (.validation ((ValidationError.mk []).addFieldError "field is required"))
        else .ok true
      else
        match validateType kind value with
        | .error e => .error e
        | .ok ok =>
            if ok then .ok true
            else .error (.validation ((ValidationError.mk []).addFieldError "invalid type for field"))
  | .constant c, value =>
      if jsStrictEq value c then .ok true
      else .error (.validation ((ValidationError.mk []).addFieldError "unmatched constant type"))
  | .schema fs, value =>
      let st := rogueScan (jsForInKeys value) (schemaLoop fs value (LoopState.mk [] none))
      match st.returnErrors with
      | some e => .error (.validation e)
      | none => .ok true

/- The per-field loop of `SchemaType.validate`.  `validated[field] =
validator.validate(value[field])` runs inside a try block: on success the
field is marked validated; on a caught ValidationError the field is
marked validated and its messages, each prefixed with the field name, are
appended to the lazily created accumulating error; any other exception
(the TypeError of `value[field]` on null/undefined, or the RangeError of
ISO8601Type) is caught and silently ignored, leaving the state unchanged. -/
def schemaLoop : Fields → JSValue → LoopState → LoopState
  | .nil, _, st => st
  | .cons field validator rest, value, st =>
      let attempt : Except JSErr Bool :=
        match jsGet value field with
        | .error e => .error e
        | .ok fieldValue => validate validator fieldValue
      let st' : LoopState :=
        match attempt with
        | .ok _ => LoopState.mk (st.validated ++ [field]) st.returnErrors
        | .error (.validation e) =>
            let re : ValidationError :=
              match st.returnErrors with
              | some r => r
              | none => ValidationError.mk []
            LoopState.mk (st.validated ++ [field])
              (some (e.getFieldErrors.foldl
                (fun acc msg => acc.addFieldError (field ++ ": " ++ msg)) re))
        | .error _ => st
      schemaLoop rest value st'
end

mutual
/- `getContract` of each class: the base Validator reflects its three
attributes; ConstantType exposes its stored value with `required: true`;
SchemaType maps `getContract` over its field mapping (`_.mapValues`),
preserving key order. -/
def getContract : JSValidator → JSValue
  | .prim _ type description required =>
      .obj [("type", .str type), ("description", .str description), ("required", .bool required)]
  | .constant c => .obj [("value", c), ("required", .bool true)]
  | .schema fs => .obj (contractFields fs)

def contractFields : Fields → List (String × JSValue)
  | .nil => []
  | .cons field validator rest => (field, getContract validator) :: contractFields rest
end

/- The class constructors.  The base Validator stores
`description || ''` (so a falsy description argument becomes the empty
string) and defaults `required` to true; each subclass fixes the `_type`
name.  ConstantType routes its expected value through the same
`description || ''` default. -/

def orEmptyString (v : JSValue) : JSValue :=
  if jsTruthy v then v else .str ""

def ValidatorCtor (type description : String) (required : Bool) : JSValidator :=
  .prim .baseK type description required

def StringTypeCtor (description : String) (required : Bool) : JSValidator :=
  .prim .stringK "String" description required

def IntegerTypeCtor (description : String) (required : Bool) : JSValidator :=
  .prim .integerK "Integer" description required

def ISO8601TypeCtor (description : String) (required : Bool) : JSValidator :=
  .prim .iso8601K "ISO8601" description required

def UUIDTypeCtor (description : String) (required : Bool) : JSValidator :=
  .prim .uuidK "UUID" description required

def ConstantTypeCtor (value : JSValue) : JSValidator :=
  .constant (orEmptyString value)

def SchemaTypeCtor (fields : Fields) : JSValidator :=
  .schema fields

/- JavaScript property assignment `schema[key] = v` on the field mapping:
overwrite in place if the key exists, append otherwise. -/
def Fields.setProp : Fields → String → JSValidator → Fields
  | .nil, key, v => .cons key v .nil
  | .cons field w rest, key, v =>
      if field = key then .cons key v rest
      else .cons field w (Fields.setProp rest key v)

/- The EventType constructor mutates the caller-supplied mapping
(`schema.type = new ConstantType(eventName)`) before passing the very
same mapping object to the SchemaType constructor.  The first component
is the mapping object's content after construction (what the caller's
reference and the new EventType's `_schema` both alias); the second is
the constructed EventType. -/
def EventTypeCtor (eventName : String) (schema : Fields) : Fields × JSValidator :=
  let mutated := Fields.setProp schema "type" (ConstantTypeCtor (.str eventName))
  (mutated, .schema mutated)

def EventTypeNew (eventName : String) (schema : Fields) : JSValidator :=
  (EventTypeCtor eventName schema).2

/- The event registry of `lib/events.js`. -/

def imBodyFields : Fields :=
  .cons "text" (StringTypeCtor "the message of the text" true)
    (.cons "messageID" (UUIDTypeCtor "unique ID of the message" true)
      (.cons "timestamp" (ISO8601TypeCtor "time the message was sent - ISO8601 format" true)
        .nil))

def imFields : Fields :=
  .cons "userID" (StringTypeCtor "The ID of the user" true)
    (.cons "body" (SchemaTypeCtor imBodyFields) .nil)

def IMEvent : JSValidator := EventTypeNew "IM" imFields

def smsBodyFields : Fields :=
  .cons "text" (StringTypeCtor "the text in the message" true)
    (.cons "messageID" (UUIDTypeCtor "unique ID of the message" false)
      (.cons "timestamp" (ISO8601TypeCtor "time the message was sent - ISO8601 format" true)
        .nil))

def smsFields : Fields :=
  .cons "phoneNumber" (StringTypeCtor "Phone number" true)
    (.cons "body" (SchemaTypeCtor smsBodyFields) .nil)

def SMSEvent : JSValidator := EventTypeNew "SMS" smsFields

/- The contract shape the specification prescribes, stated from its
words as a relation between a validator and a serialized contract:
primitive leaves expose exactly type, description and required; constant
leaves expose exactly the value and required true; a schema's contract
mirrors the declared field mapping key-by-key, recursively, with no
extra or missing keys. -/
mutual
inductive ContractMirrors : JSValidator → JSValue → Prop where
  | prim : ∀ (kind : PrimKind) (t d : String) (r : Bool),
      ContractMirrors (.prim kind t d r)
        (.obj [("type", .str t), ("description", .str d), ("required", .bool r)])
  | constant : ∀ c : JSValue,
      ContractMirrors (.constant c) (.obj [("value", c), ("required", .bool true)])
  | schema : ∀ (fs : Fields) (cs : List (String × JSValue)),
      FieldsMirror fs cs → ContractMirrors (.schema fs) (.obj cs)

inductive FieldsMirror : Fields → List (String × JSValue) → Prop where
  | nil : FieldsMirror .nil []
  | cons : ∀ (f : String) (w : JSValidator) (rest : Fields) (c : JSValue)
      (cs : List (String × JSValue)),
      ContractMirrors w c → FieldsMirror rest cs →
      FieldsMirror (.cons f w rest) ((f, c) :: cs)
end



/- The published contract of the SMS event, as documented in the
repository README. -/
def smsContractDoc : JSValue :=
  .obj
    [("phoneNumber", .obj [("type", .str "String"), ("description", .str "Phone number"),
        ("required", .bool true)]),
     ("body", .obj
        [("text", .obj [("type", .str "String"),
            ("description", .str "the text in the message"), ("required", .bool true)]),
         ("messageID", .obj [("type", .str "UUID"),
            ("description", .str "unique ID of the message"), ("required", .bool false)]),
         ("timestamp", .obj [("type", .str "ISO8601"),
            ("description", .str "time the message was sent - ISO8601 format"),
            ("required", .bool true)])]),
     ("type", .obj [("value", .str "SMS"), ("required", .bool true)])]

/- Derived descriptions of one pass of `SchemaType.validate`, used to
characterise the imperative loop above. -/

/- The try block of one loop iteration:
`validated[field] = validator.validate(value[field])`. -/
def fieldAttempt (value : JSValue) (field : String) (validator : JSValidator) :
    Except JSErr Bool :=
  match jsGet value field with
  | .error e => .error e
  | .ok fieldValue => validate validator fieldValue

/- The messages one declared field contributes to the accumulating error:
the caught ValidationError's messages, each prefixed with the field name;
nothing on success, and nothing when a non-ValidationError was thrown. -/
def fieldMsgs (value : JSValue) (field : String) (validator : JSValidator) : List String :=
  match fieldAttempt value field validator with
  | .error (.validation e) => e.getFieldErrors.map (fun msg => field ++ ": " ++ msg)
  | _ => []

/- The keys assigned into `validated` by the loop: every declared field
whose attempt returned or threw a ValidationError (fields whose attempt
threw any other exception are skipped). -/
def validatedKeys : Fields → JSValue → List String
  | .nil, _ => []
  | .cons field validator rest, value =>
      match fieldAttempt value field validator with
      | .ok _ => field :: validatedKeys rest value
      | .error (.validation _) => field :: validatedKeys rest value
      | .error _ => validatedKeys rest value

/- All messages contributed by the declared fields, in declaration order. -/
def schemaMsgs : Fields → JSValue → List String
  | .nil, _ => []
  | .cons field validator rest, value =>
      fieldMsgs value field validator ++ schemaMsgs rest value

/- Whether some declared field's attempt threw a ValidationError (exactly
the condition under which the loop creates the accumulating error). -/
def anyFieldFailure : Fields → JSValue → Bool
  | .nil, _ => false
  | .cons field validator rest, value =>
      (match fieldAttempt value field validator with
       | .error (.validation _) => true
       | _ => false) || anyFieldFailure rest value

/- The rogue-field messages: one per enumerated input key not assigned in
`validated`, in enumeration order. -/
def rogueMsgs (keys validated : List String) : List String :=
  (keys.filter (fun k => !(decide (k ∈ validated)))).map (fun k => k ++ ": unexpected field")

def anyRogue (keys validated : List String) : Bool :=
  keys.any (fun k => !(decide (k ∈ validated)))

/- The effect of a loop segment on the lazily created accumulating error:
append the new messages if the error already exists, create it holding
them if the segment demanded creation, and leave it absent otherwise. -/
def extendErrs (o : Option ValidationError) (created : Bool) (ms : List String) :
    Option ValidationError :=
  match o with
  | some e => some (ValidationError.mk (e.messages ++ ms))
  | none => if created then some (ValidationError.mk ms) else none

/- The complete message list of one `SchemaType.validate` call: the
declared fields' prefixed messages in declaration order, then the
rogue-field messages in enumeration order. -/
def allMsgs (fs : Fields) (value : JSValue) : List String :=
  schemaMsgs fs value ++ rogueMsgs (jsForInKeys value) (validatedKeys fs value)

def Fields.toList : Fields → List (String × JSValidator)
  | .nil => []
  | .cons field validator rest => (field, validator) :: Fields.toList rest

def Fields.lookup : Fields → String → Option JSValidator
  | .nil, _ => none
  | .cons field validator rest, key =>
      if field = key then some validator else Fields.lookup rest key

/- Unfolding equations for the mutually recursive functions. -/

theorem validate_prim_def (kind : PrimKind) (t d : String) (required : Bool) (value : JSValue) :
    validate (.prim kind t d required) value =
      (if jsAbsent value then
        if required then
          .error (.validation ((ValidationError.mk []).addFieldError "field is required"))
        else .ok true
      else
        match validateType kind value with
        | .error e => .error e
        | .ok ok =>
            if ok then .ok true
            else .error (.validation ((ValidationError.mk []).addFieldError "invalid type for field"))) :=
  rfl

theorem validate_constant_def (c value : JSValue) :
    validate (.constant c) value =
      (if jsStrictEq value c then .ok true
       else .error (.validation ((ValidationError.mk []).addFieldError "unmatched constant type"))) :=
  rfl

theorem validate_schema_def (fs : Fields) (value : JSValue) :
    validate (.schema fs) value =
      (match (rogueScan (jsForInKeys value)
                (schemaLoop fs value (LoopState.mk [] none))).returnErrors with
       | some e => .error (.validation e)
       | none => .ok true) :=
  rfl

theorem schemaLoop_cons (field : String) (validator : JSValidator) (rest : Fields)
    (value : JSValue) (st : LoopState) :
    schemaLoop (.cons field validator rest) value st =
      schemaLoop rest value
        (match fieldAttempt value field validator with
         | .ok _ => LoopState.mk (st.validated ++ [field]) st.returnErrors
         | .error (.validation e) =>
             LoopState.mk (st.validated ++ [field])
               (some (e.getFieldErrors.foldl
                 (fun acc msg => acc.addFieldError (field ++ ": " ++ msg))
                 (match st.returnErrors with
                  | some r => r
                  | none => ValidationError.mk [])))
         | .error _ => st) :=
  rfl

/- Folding `addFieldError` over a message list appends the prefixed
messages in order. -/
theorem foldl_addFieldError (pre : String) (ms : List String) (re : ValidationError) :
    ms.foldl (fun acc msg => acc.addFieldError (pre ++ ": " ++ msg)) re =
      ValidationError.mk (re.messages ++ ms.map (fun msg => pre ++ ": " ++ msg)) := by
  induction ms generalizing re with
  | nil =>
      cases re with
      | mk msgs => simp
  | cons m rest ih =>
      rw [List.foldl_cons, ih]
      simp [ValidationError.addFieldError, List.append_assoc]

/- The per-field loop appends the validated keys and extends the
accumulating error with the declared fields' prefixed messages. -/
theorem schemaLoop_spec : ∀ (fs : Fields) (value : JSValue) (st : LoopState),
    schemaLoop fs value st =
      LoopState.mk (st.validated ++ validatedKeys fs value)
        (extendErrs st.returnErrors (anyFieldFailure fs value) (schemaMsgs fs value))
  | .nil, value, st => by
      cases st with
      | mk v r =>
          cases r with
          | none => simp [schemaLoop, validatedKeys, anyFieldFailure, schemaMsgs, extendErrs]
          | some e => simp [schemaLoop, validatedKeys, anyFieldFailure, schemaMsgs, extendErrs]
  | .cons field validator rest, value, st => by
      rw [schemaLoop_cons]
      cases hA : fieldAttempt value field validator with
      | ok b =>
          simp only [hA]
          rw [schemaLoop_spec rest value _]
          simp only [validatedKeys, anyFieldFailure, schemaMsgs, fieldMsgs, hA]
          simp [List.append_assoc]
      | error err =>
          cases err with
          | validation e =>
              simp only [hA]
              rw [schemaLoop_spec rest value _]
              simp only [validatedKeys, anyFieldFailure, schemaMsgs, fieldMsgs, hA,
                ValidationError.getFieldErrors, foldl_addFieldError]
              cases st.returnErrors with
              | some r => simp [extendErrs, List.append_assoc]
              | none => simp [extendErrs]
          | typeError =>
              simp only [hA]
              rw [schemaLoop_spec rest value _]
              simp [validatedKeys, anyFieldFailure, schemaMsgs, fieldMsgs, hA]
          | rangeError =>
              simp only [hA]
              rw [schemaLoop_spec rest value _]
              simp [validatedKeys, anyFieldFailure, schemaMsgs, fieldMsgs, hA]

/- The rogue-field scan leaves `validated` unchanged and extends the
accumulating error with the rogue messages. -/
theorem rogueScan_spec (keys : List String) (st : LoopState) :
    rogueScan keys st =
      LoopState.mk st.validated
        (extendErrs st.returnErrors (anyRogue keys st.validated)
          (rogueMsgs keys st.validated)) := by
  induction keys generalizing st with
  | nil =>
      cases st with
      | mk v r =>
          cases r with
          | none => simp [rogueScan, anyRogue, rogueMsgs, extendErrs]
          | some e => simp [rogueScan, anyRogue, rogueMsgs, extendErrs]
  | cons k rest ih =>
      show rogueScan rest _ = _
      by_cases hC : k ∈ st.validated
      · simp only [hC, reduceIte]
        rw [ih]
        simp [anyRogue, rogueMsgs, hC]
      · simp only [hC, reduceIte]
        rw [ih]
        simp only [anyRogue, rogueMsgs, List.any_cons, List.filter_cons, hC,
          decide_False, Bool.not_false, List.map_cons, Bool.true_or]
        cases st.returnErrors with
        | some r => simp [extendErrs, ValidationError.addFieldError, List.append_assoc]
        | none => simp [extendErrs, ValidationError.addFieldError]

/- Raw characterisation of `SchemaType.validate`: the accumulating error
after both passes, expressed through the derived descriptions. -/
theorem validate_schema_raw (fs : Fields) (value : JSValue) :
    validate (.schema fs) value =
      (match extendErrs
              (extendErrs none (anyFieldFailure fs value) (schemaMsgs fs value))
              (anyRogue (jsForInKeys value) (validatedKeys fs value))
              (rogueMsgs (jsForInKeys value) (validatedKeys fs value)) with
       | some e => .error (.validation e)
       | none => .ok true) := by
  rw [validate_schema_def, schemaLoop_spec, rogueScan_spec]
  simp only [List.nil_append]

/- If no declared field threw a ValidationError, the fields contribute no
messages. -/
theorem schemaMsgs_eq_nil_of_not_anyFF : ∀ (fs : Fields) (value : JSValue),
    anyFieldFailure fs value = false → schemaMsgs fs value = []
  | .nil, _, _ => rfl
  | .cons field validator rest, value, h => by
      simp only [anyFieldFailure, Bool.or_eq_false_iff] at h
      cases hA : fieldAttempt value field validator with
      | ok b =>
          simp only [schemaMsgs, fieldMsgs, hA, List.nil_append]
          exact schemaMsgs_eq_nil_of_not_anyFF rest value h.2
      | error err =>
          cases err with
          | validation e => rw [hA] at h; simp at h
          | typeError =>
              simp only [schemaMsgs, fieldMsgs, hA, List.nil_append]
              exact schemaMsgs_eq_nil_of_not_anyFF rest value h.2
          | rangeError =>
              simp only [schemaMsgs, fieldMsgs, hA, List.nil_append]
              exact schemaMsgs_eq_nil_of_not_anyFF rest value h.2

theorem rogueMsgs_eq_nil_of_not_anyRogue (keys validated : List String)
    (h : anyRogue keys validated = false) : rogueMsgs keys validated = [] := by
  simp only [anyRogue, List.any_eq_false] at h
  simp only [rogueMsgs, List.map_eq_nil_iff, List.filter_eq_nil_iff]
  intro k hk
  have := h k hk
  simpa using this

theorem rogueMsgs_ne_nil_of_anyRogue (keys validated : List String)
    (h : anyRogue keys validated = true) : rogueMsgs keys validated ≠ [] := by
  simp only [anyRogue, List.any_eq_true] at h
  obtain ⟨k, hk, hp⟩ := h
  simp only [rogueMsgs, ne_eq, List.map_eq_nil_iff, List.filter_eq_nil_iff]
  intro hall
  exact absurd hp (by simpa using hall k hk)

/- `value[field]` can only throw a TypeError. -/
theorem jsGet_error_eq (v : JSValue) (f : String) (e : JSErr)
    (h : jsGet v f = .error e) : e = .typeError := by
  cases v <;> simp [jsGet] at h <;> exact h.symm

/- `validateType` can only throw a RangeError (from ISO8601). -/
theorem validateType_error_eq (kind : PrimKind) (v : JSValue) (e : JSErr)
    (h : validateType kind v = .error e) : e = .rangeError := by
  cases kind with
  | iso8601K =>
      simp only [validateType] at h
      cases hD : jsNewDate v with
      | none =>
          rw [hD] at h
          simp only [Except.error.injEq] at h
          exact h.symm
      | some t => rw [hD] at h; simp at h
  | baseK => simp [validateType] at h
  | stringK => simp [validateType] at h
  | integerK => simp [validateType] at h
  | uuidK => simp [validateType] at h

/- Composing the two passes' error extensions: the result, when present,
holds a nonempty message list provided each pass only contributes
nonempty lists when its creation flag is set. -/
theorem extendErrs_comp_ne_nil (b1 b2 : Bool) (m1 m2 : List String) (e' : ValidationError)
    (hE : extendErrs (extendErrs none b1 m1) b2 m2 = some e')
    (h1 : b1 = true → m1 ≠ []) (h2 : b2 = true → m2 ≠ []) :
    e'.messages ≠ [] := by
  cases b1 with
  | true =>
      have hEE : extendErrs (extendErrs none true m1) b2 m2 =
          some (ValidationError.mk (m1 ++ m2)) := rfl
      rw [hEE] at hE
      injection hE with hE
      rw [← hE]
      intro hc
      exact h1 rfl (List.append_eq_nil.mp hc).1
  | false =>
      cases b2 with
      | true =>
          have hEE : extendErrs (extendErrs none false m1) true m2 =
              some (ValidationError.mk m2) := rfl
          rw [hEE] at hE
          injection hE with hE
          rw [← hE]
          simpa using h2 rfl
      | false =>
          have hEE : extendErrs (extendErrs none false m1) false m2 =
              (none : Option ValidationError) := rfl
          rw [hEE] at hE
          cases hE

mutual
/- Every ValidationError thrown by any `validate` carries at least one
message at the moment it is thrown. -/
theorem validate_validation_ne_nil : ∀ (w : JSValidator) (v : JSValue) (e : ValidationError),
    validate w v = .error (.validation e) → e.messages ≠ []
  | .prim kind t d req, v, e => by
      intro h
      rw [validate_prim_def] at h
      split at h
      · split at h
        · simp only [ValidationError.addFieldError, List.nil_append,
            Except.error.injEq, JSErr.validation.injEq] at h
          subst h
          simp
        · exact absurd h (by simp)
      · split at h
        next e2 hT =>
          rw [validateType_error_eq kind v e2 hT] at h
          simp at h
        next b hT =>
          split at h
          · simp at h
          · simp only [ValidationError.addFieldError, List.nil_append,
              Except.error.injEq, JSErr.validation.injEq] at h
            subst h
            simp
  | .constant c, v, e => by
      intro h
      rw [validate_constant_def] at h
      split at h
      · simp at h
      · simp only [ValidationError.addFieldError, List.nil_append,
          Except.error.injEq, JSErr.validation.injEq] at h
        subst h
        simp
  | .schema fs, v, e => by
      intro h
      rw [validate_schema_raw] at h
      cases hE : extendErrs (extendErrs none (anyFieldFailure fs v) (schemaMsgs fs v))
          (anyRogue (jsForInKeys v) (validatedKeys fs v))
          (rogueMsgs (jsForInKeys v) (validatedKeys fs v)) with
      | none => rw [hE] at h; exact absurd h (by simp)
      | some e2 =>
          rw [hE] at h
          simp only [Except.error.injEq, JSErr.validation.injEq] at h
          subst h
          exact extendErrs_comp_ne_nil _ _ _ _ e2 hE
            (fun hb => anyFF_schemaMsgs_ne_nil fs v hb)
            (fun hb => rogueMsgs_ne_nil_of_anyRogue _ _ hb)

/- If some declared field threw a ValidationError, the fields' combined
message list is nonempty (the thrown error was itself nonempty). -/
theorem anyFF_schemaMsgs_ne_nil : ∀ (fs : Fields) (v : JSValue),
    anyFieldFailure fs v = true → schemaMsgs fs v ≠ []
  | .nil, v, h => by simp [anyFieldFailure] at h
  | .cons field validator rest, v, h => by
      cases hA : fieldAttempt v field validator with
      | error err =>
          cases err with
          | validation e =>
              have hne : e.messages ≠ [] := by
                have hA' := hA
                unfold fieldAttempt at hA'
                cases hG : jsGet v field with
                | error eg =>
                    rw [hG] at hA'
                    simp only [Except.error.injEq] at hA'
                    rw [jsGet_error_eq v field eg hG] at hA'
                    cases hA'
                | ok fv =>
                    rw [hG] at hA'
                    exact validate_validation_ne_nil validator fv e hA'
              simp only [schemaMsgs, fieldMsgs, hA, ValidationError.getFieldErrors]
              intro hcontr
              rcases List.append_eq_nil.mp hcontr with ⟨h1, _⟩
              exact hne (List.map_eq_nil_iff.mp h1)
          | typeError =>
              simp only [anyFieldFailure, hA, Bool.false_or] at h
              have hrest := anyFF_schemaMsgs_ne_nil rest v h
              simp only [schemaMsgs, fieldMsgs, hA, List.nil_append]
              exact hrest
          | rangeError =>
              simp only [anyFieldFailure, hA, Bool.false_or] at h
              have hrest := anyFF_schemaMsgs_ne_nil rest v h
              simp only [schemaMsgs, fieldMsgs, hA, List.nil_append]
              exact hrest
      | ok b =>
          simp only [anyFieldFailure, hA, Bool.false_or] at h
          have hrest := anyFF_schemaMsgs_ne_nil rest v h
          simp only [schemaMsgs, fieldMsgs, hA, List.nil_append]
          exact hrest
end

/- Full characterisation of `SchemaType.validate`: collect every declared
field's prefixed ValidationError messages in declaration order, then one
"unexpected field" message per enumerated input key that was not
validated; fail with exactly that list iff it is nonempty. -/
theorem validate_schema_eq (fs : Fields) (value : JSValue) :
    validate (.schema fs) value =
      (if allMsgs fs value = [] then .ok true
       else .error (.validation (ValidationError.mk (allMsgs fs value)))) := by
  rw [validate_schema_raw]
  cases hF : anyFieldFailure fs value with
  | true =>
      have hne : schemaMsgs fs value ≠ [] := anyFF_schemaMsgs_ne_nil fs value hF
      have hEE : extendErrs (extendErrs none true (schemaMsgs fs value))
          (anyRogue (jsForInKeys value) (validatedKeys fs value))
          (rogueMsgs (jsForInKeys value) (validatedKeys fs value)) =
          some (ValidationError.mk (allMsgs fs value)) := rfl
      rw [hEE]
      rw [if_neg (by simp [allMsgs, hne])]
  | false =>
      have hsm : schemaMsgs fs value = [] := schemaMsgs_eq_nil_of_not_anyFF fs value hF
      cases hR : anyRogue (jsForInKeys value) (validatedKeys fs value) with
      | true =>
          have hne := rogueMsgs_ne_nil_of_anyRogue (jsForInKeys value) (validatedKeys fs value) hR
          have hEE : extendErrs (extendErrs none false (schemaMsgs fs value)) true
              (rogueMsgs (jsForInKeys value) (validatedKeys fs value)) =
              some (ValidationError.mk
                (rogueMsgs (jsForInKeys value) (validatedKeys fs value))) := rfl
          rw [hEE]
          rw [if_neg (by simp [allMsgs, hsm, hne])]
          simp [allMsgs, hsm]
      | false =>
          have hrm : rogueMsgs (jsForInKeys value) (validatedKeys fs value) = [] :=
            rogueMsgs_eq_nil_of_not_anyRogue _ _ hR
          have hEE : extendErrs (extendErrs none false (schemaMsgs fs value)) false
              (rogueMsgs (jsForInKeys value) (validatedKeys fs value)) =
              (none : Option ValidationError) := rfl
          rw [hEE]
          rw [if_pos (by simp [allMsgs, hsm, hrm])]

/- Membership helpers for declared fields. -/

theorem mem_schemaMsgs_of_mem : ∀ (fs : Fields) (value : JSValue) (f : String)
    (w : JSValidator), (f, w) ∈ fs.toList → ∀ m ∈ fieldMsgs value f w,
    m ∈ schemaMsgs fs value
  | .nil, _, _, _, hmem => by simp [Fields.toList] at hmem
  | .cons field validator rest, value, f, w, hmem => by
      intro m hm
      simp only [Fields.toList, List.mem_cons] at hmem
      cases hmem with
      | inl hhead =>
          injection hhead with hf hw
          subst hf; subst hw
          simp only [schemaMsgs, List.mem_append]
          exact Or.inl hm
      | inr htail =>
          simp only [schemaMsgs, List.mem_append]
          exact Or.inr (mem_schemaMsgs_of_mem rest value f w htail m hm)

theorem anyFF_of_mem : ∀ (fs : Fields) (value : JSValue) (f : String) (w : JSValidator)
    (e : ValidationError), (f, w) ∈ fs.toList →
    fieldAttempt value f w = .error (.validation e) → anyFieldFailure fs value = true
  | .nil, _, _, _, _, hmem, _ => by simp [Fields.toList] at hmem
  | .cons field validator rest, value, f, w, e, hmem, hA => by
      simp only [Fields.toList, List.mem_cons] at hmem
      cases hmem with
      | inl hhead =>
          injection hhead with hf hw
          subst hf; subst hw
          simp [anyFieldFailure, hA]
      | inr htail =>
          have := anyFF_of_mem rest value f w e htail hA
          simp [anyFieldFailure, this]

/- JavaScript property assignment places the assigned pair in the mapping. -/
theorem setProp_mem : ∀ (fs : Fields) (key : String) (v : JSValidator),
    (key, v) ∈ (Fields.setProp fs key v).toList
  | .nil, key, v => by simp [Fields.setProp, Fields.toList]
  | .cons field w rest, key, v => by
      by_cases hf : field = key
      · simp [Fields.setProp, hf, Fields.toList]
      · simp only [Fields.setProp, hf, if_false, Fields.toList, List.mem_cons]
        exact Or.inr (setProp_mem rest key v)

/- Overwriting the same key twice keeps only the second assignment. -/
theorem setProp_setProp : ∀ (fs : Fields) (key : String) (v1 v2 : JSValidator),
    Fields.setProp (Fields.setProp fs key v1) key v2 = Fields.setProp fs key v2
  | .nil, key, v1, v2 => by simp [Fields.setProp]
  | .cons field w rest, key, v1, v2 => by
      by_cases hf : field = key
      · simp [Fields.setProp, hf]
      · simp only [Fields.setProp, hf, if_false]
        rw [setProp_setProp rest key v1 v2]

theorem setProp_lookup : ∀ (fs : Fields) (key : String) (v : JSValidator),
    Fields.lookup (Fields.setProp fs key v) key = some v
  | .nil, key, v => by simp [Fields.setProp, Fields.lookup]
  | .cons field w rest, key, v => by
      by_cases hf : field = key
      · simp [Fields.setProp, hf, Fields.lookup]
      · simp only [Fields.setProp, hf, if_false, Fields.lookup]
        exact setProp_lookup rest key v

/- Strict equality is sound for equality (the converse fails only for
object references, which compare by identity). -/
theorem jsStrictEq_eq_of_true (a b : JSValue) (h : jsStrictEq a b = true) : a = b := by
  cases a <;> cases b <;> simp_all [jsStrictEq]

/- The `description || ''` default is the identity on strings (the empty
string is replaced by itself). -/
theorem orEmptyString_str (s : String) : orEmptyString (.str s) = .str s := by
  by_cases h : s = "" <;> simp [orEmptyString, jsTruthy, h]

theorem constantTypeCtor_str (s : String) : ConstantTypeCtor (.str s) = .constant (.str s) := by
  simp [ConstantTypeCtor, orEmptyString_str]

theorem eventTypeNew_eq (eventName : String) (fs : Fields) :
    EventTypeNew eventName fs =
      .schema (Fields.setProp fs "type" (.constant (.str eventName))) := by
  simp [EventTypeNew, EventTypeCtor, constantTypeCtor_str]

/- On a null or undefined input every field attempt throws a TypeError,
so the loop contributes nothing and nothing is enumerated. -/
theorem schemaMsgs_absent : ∀ (fs : Fields) (v : JSValue), jsAbsent v = true →
    schemaMsgs fs v = [] ∧ anyFieldFailure fs v = false
  | .nil, v, _ => ⟨rfl, rfl⟩
  | .cons field validator rest, v, hab => by
      have hG : jsGet v field = .error .typeError := by
        cases v <;> simp [jsGet] <;> simp [jsAbsent] at hab
      have hA : fieldAttempt v field validator = .error .typeError := by
        unfold fieldAttempt
        rw [hG]
      have hrest := schemaMsgs_absent rest v hab
      constructor
      · simp only [schemaMsgs, fieldMsgs, hA, List.nil_append]
        exact hrest.1
      · simp only [anyFieldFailure, hA, Bool.false_or]
        exact hrest.2

theorem jsForInKeys_absent (v : JSValue) (hab : jsAbsent v = true) : jsForInKeys v = [] := by
  cases v <;> simp [jsForInKeys] <;> simp [jsAbsent] at hab

/- `SchemaType.validate` on null/undefined succeeds: every TypeError from
`value[field]` is swallowed, and there is nothing to scan for rogue fields. -/
theorem validate_schema_absent (fs : Fields) (v : JSValue) (hab : jsAbsent v = true) :
    validate (.schema fs) v = .ok true := by
  rw [validate_schema_eq]
  have h1 := (schemaMsgs_absent fs v hab).1
  have h2 := jsForInKeys_absent v hab
  rw [if_pos (by simp [allMsgs, h1, h2, rogueMsgs])]

/- A schema whose "type" field is a ConstantType pinned to `name` rejects
every object input whose "type" value differs from `name`, reporting
"type: unmatched constant type" among its messages. -/
theorem discriminator_rejects (name : String) (fs : Fields) (l : List (String × JSValue))
    (h : (List.lookup "type" l).getD .undef ≠ .str name) :
    ∃ e : ValidationError,
      validate (.schema (Fields.setProp fs "type" (.constant (.str name)))) (.obj l) =
        .error (.validation e) ∧
      ("type: unmatched constant type") ∈ e.getFieldErrors := by
  have hmem : ("type", JSValidator.constant (.str name)) ∈
      (Fields.setProp fs "type" (.constant (.str name))).toList := setProp_mem fs _ _
  have hV : validate (.constant (.str name)) ((List.lookup "type" l).getD .undef) =
      .error (.validation (ValidationError.mk ["unmatched constant type"])) := by
    rw [validate_constant_def]
    have heq : jsStrictEq ((List.lookup "type" l).getD .undef) (.str name) = false := by
      cases hsq : jsStrictEq ((List.lookup "type" l).getD .undef) (.str name) with
      | true => exact absurd (jsStrictEq_eq_of_true _ _ hsq) h
      | false => rfl
    rw [if_neg (by simp [heq])]
    rfl
  have hA : fieldAttempt (.obj l) "type" (.constant (.str name)) =
      .error (.validation (ValidationError.mk ["unmatched constant type"])) := by
    unfold fieldAttempt
    exact hV
  have hFM : "type: unmatched constant type" ∈
      fieldMsgs (.obj l) "type" (.constant (.str name)) := by
    simp [fieldMsgs, hA, ValidationError.getFieldErrors]
  have hmemMsgs := mem_schemaMsgs_of_mem _ (.obj l) "type" _ hmem _ hFM
  have hmemAll : "type: unmatched constant type" ∈
      allMsgs (Fields.setProp fs "type" (.constant (.str name))) (.obj l) := by
    simp only [allMsgs, List.mem_append]
    exact Or.inl hmemMsgs
  refine ⟨ValidationError.mk
    (allMsgs (Fields.setProp fs "type" (.constant (.str name))) (.obj l)), ?_, ?_⟩
  · rw [validate_schema_eq]
    rw [if_neg (List.ne_nil_of_mem hmemAll)]
  · exact hmemAll

mutual
theorem contract_mirrors_getContract : ∀ w : JSValidator, ContractMirrors w (getContract w)
  | .prim kind t d r => .prim kind t d r
  | .constant c => .constant c
  | .schema fs => .schema fs (contractFields fs) (contractFields_mirror fs)

theorem contractFields_mirror : ∀ fs : Fields, FieldsMirror fs (contractFields fs)
  | .nil => .nil
  | .cons f w rest =>
      .cons f w rest (getContract w) (contractFields rest)
        (contract_mirrors_getContract w) (contractFields_mirror rest)
end

/- Claim theorems. -/

/-- C1 counterexample: "no error is silently dropped" and "unexpected
field messages arise only for input fields absent from the declared
mapping" both fail.  With a declared required ISO8601 field "tsField" and
object input assigning it the unparseable string "junk", the field's
validator raises a RangeError (not a ValidationError); the schema loop
swallows it, never records the field as validated, and the rogue-field
scan then reports the declared, present field as "tsField: unexpected
field" — the only message of the failure. -/
theorem schema_aggregation_cex :
    Fields.lookup (.cons "tsField" (ISO8601TypeCtor "" true) .nil) "tsField" =
      some (ISO8601TypeCtor "" true) ∧
    validate (ISO8601TypeCtor "" true) (.str "junk") = .error .rangeError ∧
    validate (SchemaTypeCtor (.cons "tsField" (ISO8601TypeCtor "" true) .nil))
        (.obj [("tsField", .str "junk")]) =
      .error (.validation (ValidationError.mk ["tsField: unexpected field"])) :=
  ⟨rfl, rfl, rfl⟩

/-- C1 (amended): SchemaType.validate evaluates every declared field's
validator without short-circuiting; every field failure that is a
ValidationError contributes its messages prefixed with "<field>: ", in
declaration order, to one accumulating error (while a non-ValidationError
from a field is silently swallowed and, when the field is present in the
input, the field is reported as "<field>: unexpected field" instead);
"<field>: unexpected field" is appended for every enumerated input field
not recorded as validated; validation fails with exactly the accumulated
list iff it is nonempty.  In particular the schema
(stringField: String required, intField: Integer optional) on input
(intField: "not an int") fails with exactly the two messages
"stringField: field is required" and "intField: invalid type for field"
in declaration order, and a rogue input field alone yields exactly
"rogueField: unexpected field". -/
theorem schema_aggregation_amended :
    (∀ (fs : Fields) (value : JSValue),
        validate (.schema fs) value =
          (if allMsgs fs value = [] then .ok true
           else .error (.validation (ValidationError.mk (allMsgs fs value))))) ∧
    validate (SchemaTypeCtor (.cons "stringField" (StringTypeCtor "" true)
        (.cons "intField" (IntegerTypeCtor "" false) .nil)))
      (.obj [("intField", .str "not an int")]) =
      .error (.validation (ValidationError.mk
        ["stringField: field is required", "intField: invalid type for field"])) ∧
    validate (SchemaTypeCtor (.cons "stringField" (StringTypeCtor "" true)
        (.cons "intField" (IntegerTypeCtor "" false) .nil)))
      (.obj [("stringField", .str "ok"), ("rogueField", .str "rogue")]) =
      .error (.validation (ValidationError.mk ["rogueField: unexpected field"])) :=
  ⟨validate_schema_eq, rfl, rfl⟩

/-- C1 witness: the amended characterisation instantiated at the
two-field example schema and input. -/
theorem schema_aggregation_amended_witness :
    validate (SchemaTypeCtor (.cons "stringField" (StringTypeCtor "" true)
        (.cons "intField" (IntegerTypeCtor "" false) .nil)))
      (.obj [("intField", .str "not an int")]) =
      (if allMsgs (.cons "stringField" (StringTypeCtor "" true)
            (.cons "intField" (IntegerTypeCtor "" false) .nil))
          (.obj [("intField", .str "not an int")]) = [] then .ok true
       else .error (.validation (ValidationError.mk
        (allMsgs (.cons "stringField" (StringTypeCtor "" true)
            (.cons "intField" (IntegerTypeCtor "" false) .nil))
          (.obj [("intField", .str "not an int")]))))) :=
  schema_aggregation_amended.1 _ _

/-- C2: the code, not the claim, is at fault.  On null or undefined the
property access `value[field]` throws a TypeError that the catch block
silently swallows, so SchemaType.validate reports nothing and returns
true — required fields are never reported missing; consequently an SMS
event input missing its entire required body object passes validation.
On a string input the for-in scan enumerates character indices, so rogue
"0: unexpected field" messages appear.  On a number input the claimed
degradation does hold. -/
theorem schema_nonobject_input_bug :
    validate (SchemaTypeCtor (.cons "stringField" (StringTypeCtor "" true) .nil)) .null =
      .ok true ∧
    validate (SchemaTypeCtor (.cons "stringField" (StringTypeCtor "" true) .nil)) .undef =
      .ok true ∧
    validate SMSEvent (.obj [("type", .str "SMS"), ("phoneNumber", .str "555")]) = .ok true ∧
    validate (SchemaTypeCtor (.cons "stringField" (StringTypeCtor "" true) .nil)) (.str "ab") =
      .error (.validation (ValidationError.mk
        ["stringField: field is required", "0: unexpected field", "1: unexpected field"])) ∧
    validate (SchemaTypeCtor (.cons "stringField" (StringTypeCtor "" true) .nil)) (.num 5) =
      .error (.validation (ValidationError.mk ["stringField: field is required"])) :=
  ⟨rfl, rfl, rfl, rfl, rfl⟩

/-- C3 counterexample: a present value violating the round-trip predicate
need not fail with a ValidationError.  On the unparseable string "junk"
the parsed date is invalid, so toISOString raises a RangeError that
propagates out of validate. -/
theorem iso8601_nonvalidation_cex :
    validate (ISO8601TypeCtor "" true) (.str "junk") = .error .rangeError ∧
    JSErr.rangeError ≠ JSErr.validation (ValidationError.mk ["invalid type for field"]) :=
  ⟨rfl, fun h => JSErr.noConfusion h⟩

/-- C3 (amended): for every present value, ISO8601 validation succeeds
iff the value equals (as a string, under strict equality) the canonical
ISO-8601 UTC millisecond serialization of its own date parse; a present
value that parses to a valid date but fails the round-trip comparison
fails with exactly the message "invalid type for field", while a present
value whose date parse is invalid (an unparseable string, or a plain
object) raises a RangeError instead of a ValidationError. -/
theorem iso8601_roundtrip_amended :
    ∀ (d : String) (req : Bool) (v : JSValue), jsAbsent v = false →
      (validate (ISO8601TypeCtor d req) v = .ok true ↔
        ∃ t : Int, jsNewDate v = some t ∧ jsStrictEq (.str (toISOString t)) v = true) ∧
      (jsNewDate v = none → validate (ISO8601TypeCtor d req) v = .error .rangeError) ∧
      (∀ t : Int, jsNewDate v = some t → jsStrictEq (.str (toISOString t)) v = false →
        validate (ISO8601TypeCtor d req) v =
          .error (.validation (ValidationError.mk ["invalid type for field"]))) := by
  intro d req v hab
  have hbase : validate (ISO8601TypeCtor d req) v =
      (match validateType .iso8601K v with
       | .error e => .error e
       | .ok ok =>
           if ok then .ok true
           else .error (.validation
             ((ValidationError.mk []).addFieldError "invalid type for field"))) := by
    rw [show ISO8601TypeCtor d req = .prim .iso8601K "ISO8601" d req from rfl,
      validate_prim_def, if_neg (by simp [hab])]
  cases hD : jsNewDate v with
  | none =>
      have hT : validateType .iso8601K v = .error .rangeError := by
        simp [validateType, hD]
      rw [hT] at hbase
      have herr : validate (ISO8601TypeCtor d req) v = .error .rangeError := by
        rw [hbase]
      refine ⟨?_, fun _ => herr, ?_⟩
      · exact iff_of_false
          (by rw [herr]; exact fun hc => Except.noConfusion hc)
          (by rintro ⟨t2, ht2, _⟩; exact Option.noConfusion ht2)
      · intro t2 ht2 _
        exact Option.noConfusion ht2
  | some t =>
      have hT : validateType .iso8601K v = .ok (jsStrictEq (.str (toISOString t)) v) := by
        simp [validateType, hD]
      rw [hT] at hbase
      cases hS : jsStrictEq (.str (toISOString t)) v with
      | true =>
          rw [hS] at hbase
          have hok : validate (ISO8601TypeCtor d req) v = .ok true := by
            rw [hbase]
            rfl
          refine ⟨iff_of_true hok ⟨t, rfl, hS⟩, ?_, ?_⟩
          · intro hc
            exact Option.noConfusion hc
          · intro t2 ht2 hs2
            injection ht2 with hte
            rw [← hte] at hs2
            exact absurd (hS.symm.trans hs2) (fun hcc => Bool.noConfusion hcc)
      | false =>
          rw [hS] at hbase
          have herr : validate (ISO8601TypeCtor d req) v =
              .error (.validation (ValidationError.mk ["invalid type for field"])) := by
            rw [hbase]
            rfl
          refine ⟨?_, ?_, ?_⟩
          · refine iff_of_false (by rw [herr]; exact fun hc => Except.noConfusion hc) ?_
            rintro ⟨t2, ht2, hs2⟩
            injection ht2 with hte
            rw [← hte] at hs2
            exact Bool.noConfusion (hS.symm.trans hs2)
          · intro hc
            exact Option.noConfusion hc
          · intro t2 ht2 hs2
            exact herr

/-- C3 witness: the canonical timestamp from the repository README
satisfies the round-trip predicate and validates successfully. -/
theorem iso8601_roundtrip_amended_witness :
    jsAbsent (.str "2017-08-18T19:42:15.423Z") = false ∧
    (validate (ISO8601TypeCtor "" true) (.str "2017-08-18T19:42:15.423Z") = .ok true ↔
      ∃ t : Int, jsNewDate (.str "2017-08-18T19:42:15.423Z") = some t ∧
        jsStrictEq (.str (toISOString t)) (.str "2017-08-18T19:42:15.423Z") = true) :=
  ⟨rfl, (iso8601_roundtrip_amended "" true (.str "2017-08-18T19:42:15.423Z") rfl).1⟩

/-- C4 counterexample: "for every validator" fails.  ConstantType
overrides validate, so on a required ConstantType the absent value null
is reported as "unmatched constant type", not "field is required". -/
theorem required_null_cex :
    validate (ConstantTypeCtor (.str "SMS")) .null =
      .error (.validation (ValidationError.mk ["unmatched constant type"])) ∧
    ("unmatched constant type" : String) ≠ "field is required" :=
  ⟨rfl, by decide⟩

/-- C4 (amended): for every validator inheriting Validator.validate (the
base Validator and the String/Integer/ISO8601/UUID primitives),
validate(null/undefined) when required fails with exactly
["field is required"]; when not required it returns true and performs no
type check (even ISO8601, whose type check could throw, is skipped); any
ValidationError such a validator throws is exactly one of the two
single-message errors, and it is the presence error exactly when the
value was absent and required — so presence and type checks are mutually
exclusive.  ConstantType, which overrides validate, instead reports null
as "unmatched constant type", and SchemaType, which also overrides it,
returns true on null. -/
theorem required_null_amended :
    ∀ (kind : PrimKind) (t d : String) (v : JSValue), jsAbsent v = true →
      validate (.prim kind t d true) v =
        .error (.validation (ValidationError.mk ["field is required"])) ∧
      validate (.prim kind t d false) v = .ok true ∧
      (∀ (req : Bool) (w : JSValue) (e : ValidationError),
          validate (.prim kind t d req) w = .error (.validation e) →
          (e.getFieldErrors = ["field is required"] ∨
            e.getFieldErrors = ["invalid type for field"]) ∧
          (e.getFieldErrors = ["field is required"] ↔ (jsAbsent w = true ∧ req = true))) ∧
      (∀ s : String, validate (.constant (.str s)) .null =
        .error (.validation (ValidationError.mk ["unmatched constant type"]))) ∧
      (∀ fs : Fields, validate (.schema fs) .null = .ok true) := by
  intro kind t d v hab
  refine ⟨?_, ?_, ?_, ?_, ?_⟩
  · rw [validate_prim_def, if_pos hab]
    rfl
  · rw [validate_prim_def, if_pos hab]
    rfl
  · intro req w e h
    rw [validate_prim_def] at h
    by_cases habs : jsAbsent w = true
    · rw [if_pos habs] at h
      cases req with
      | true =>
          rw [if_pos rfl] at h
          injection h with h1
          injection h1 with h2
          subst h2
          constructor
          · exact Or.inl rfl
          · simp [habs, ValidationError.getFieldErrors, ValidationError.addFieldError]
      | false =>
          rw [if_neg (by simp)] at h
          exact Except.noConfusion h
    · rw [if_neg habs] at h
      cases hT : validateType kind w with
      | error e2 =>
          rw [hT] at h
          rw [validateType_error_eq kind w e2 hT] at h
          injection h with h1
          exact absurd h1 (fun hc => JSErr.noConfusion hc)
      | ok b =>
          rw [hT] at h
          cases b with
          | true => exact Except.noConfusion h
          | false =>
              injection h with h1
              injection h1 with h2
              subst h2
              constructor
              · exact Or.inr rfl
              · constructor
                · intro hmsg
                  exact absurd hmsg
                    (by simp [ValidationError.getFieldErrors, ValidationError.addFieldError])
                · rintro ⟨habs2, _⟩
                  exact absurd habs2 habs
  · intro s
    rw [validate_constant_def, if_neg (by simp [jsStrictEq])]
    rfl
  · intro fs
    exact validate_schema_absent fs .null rfl

/-- C4 witness: the amended statement at the String primitive and null. -/
theorem required_null_amended_witness :
    jsAbsent .null = true ∧
    validate (.prim .stringK "String" "" true) .null =
      .error (.validation (ValidationError.mk ["field is required"])) :=
  ⟨rfl, (required_null_amended .stringK "String" "" .null rfl).1⟩

/-- C5: a nested failure that reaches the parent as a ValidationError is
re-labelled with the enclosing field's name: each inner message appears
in the parent's message list with "<field>: " prepended, and the parent
fails; in particular the two-level schema with a missing innermost
required string field fails with exactly
"schemaField: stringField: field is required". -/
theorem nested_prefixing :
    (∀ (fs : Fields) (value : JSValue) (f : String) (w : JSValidator) (fv : JSValue)
        (e : ValidationError),
        (f, w) ∈ fs.toList → jsGet value f = .ok fv →
        validate w fv = .error (.validation e) →
        validate (.schema fs) value =
          .error (.validation (ValidationError.mk (allMsgs fs value))) ∧
        ∀ m ∈ e.getFieldErrors, (f ++ ": " ++ m) ∈ allMsgs fs value) ∧
    validate (SchemaTypeCtor (.cons "schemaField"
        (SchemaTypeCtor (.cons "stringField" (StringTypeCtor "" true) .nil)) .nil))
      (.obj [("schemaField", .obj [])]) =
      .error (.validation (ValidationError.mk
        ["schemaField: stringField: field is required"])) := by
  constructor
  · intro fs value f w fv e hmem hG hV
    have hA : fieldAttempt value f w = .error (.validation e) := by
      unfold fieldAttempt
      rw [hG]
      exact hV
    have hFF : anyFieldFailure fs value = true := anyFF_of_mem fs value f w e hmem hA
    have hnell : allMsgs fs value ≠ [] := by
      intro hc
      have hsm : schemaMsgs fs value = [] :=
        (List.append_eq_nil.mp (by simpa [allMsgs] using hc)).1
      exact anyFF_schemaMsgs_ne_nil fs value hFF hsm
    refine ⟨?_, ?_⟩
    · rw [validate_schema_eq, if_neg hnell]
    · intro m hm
      have hfm : (f ++ ": " ++ m) ∈ fieldMsgs value f w := by
        simp only [fieldMsgs, hA, ValidationError.getFieldErrors]
        exact List.mem_map_of_mem _ hm
      have h2 := mem_schemaMsgs_of_mem fs value f w hmem _ hfm
      simp only [allMsgs, List.mem_append]
      exact Or.inl h2
  · rfl

/-- C5 witness: the general statement instantiated at the two-level
example, placing the fully dotted message in the parent's list. -/
theorem nested_prefixing_witness :
    ("schemaField" ++ ": " ++ "stringField: field is required") ∈
      allMsgs (.cons "schemaField"
          (SchemaTypeCtor (.cons "stringField" (StringTypeCtor "" true) .nil)) .nil)
        (.obj [("schemaField", .obj [])]) :=
  (nested_prefixing.1
      (.cons "schemaField"
        (SchemaTypeCtor (.cons "stringField" (StringTypeCtor "" true) .nil)) .nil)
      (.obj [("schemaField", .obj [])])
      "schemaField"
      (SchemaTypeCtor (.cons "stringField" (StringTypeCtor "" true) .nil))
      (.obj [])
      (ValidationError.mk ["stringField: field is required"])
      (by simp [Fields.toList, SchemaTypeCtor]) rfl rfl).2
    "stringField: field is required" (by simp [ValidationError.getFieldErrors])

/-- C6: the EventType constructor yields a SchemaType over the caller's
mapping with the reserved "type" key bound to a ConstantType fixed to
the event name; consequently, on any object input whose "type" value is
not strictly equal to the event name, validation fails and the message
list contains "type: unmatched constant type". -/
theorem event_discriminator :
    ∀ (eventName : String) (fs : Fields),
      EventTypeNew eventName fs =
        .schema (Fields.setProp fs "type" (.constant (.str eventName))) ∧
      ∀ l : List (String × JSValue),
        (List.lookup "type" l).getD .undef ≠ .str eventName →
        ∃ e : ValidationError,
          validate (EventTypeNew eventName fs) (.obj l) = .error (.validation e) ∧
          ("type: unmatched constant type") ∈ e.getFieldErrors := by
  intro eventName fs
  refine ⟨eventTypeNew_eq eventName fs, ?_⟩
  intro l hl
  rw [eventTypeNew_eq]
  exact discriminator_rejects eventName fs l hl

/-- C6 witness: the SMS event rejects an input whose discriminator says
"IM", reporting the unmatched constant. -/
theorem event_discriminator_witness :
    (List.lookup "type" [("type", JSValue.str "IM")]).getD .undef ≠ .str "SMS" ∧
    ∃ e : ValidationError,
      validate (EventTypeNew "SMS" smsFields) (.obj [("type", .str "IM")]) =
        .error (.validation e) ∧
      ("type: unmatched constant type") ∈ e.getFieldErrors :=
  ⟨by simp, (event_discriminator "SMS" smsFields).2 [("type", .str "IM")] (by simp)⟩

/-- C7: getContract serializes every validator into a contract that
mirrors the declared structure exactly — primitive leaves shaped
(type, description, required), constant leaves shaped
(value, required true), schema nodes mapping each declared field, in
order, to its own contract, with no extra or missing keys — and the SMS
event's contract is exactly the mapping published in the README. -/
theorem contract_shape :
    (∀ w : JSValidator, ContractMirrors w (getContract w)) ∧
    getContract SMSEvent = smsContractDoc :=
  ⟨contract_mirrors_getContract, rfl⟩

/-- C7 witness: the mirroring statement instantiated at the SMS event. -/
theorem contract_shape_witness : ContractMirrors SMSEvent (getContract SMSEvent) :=
  contract_shape.1 SMSEvent

/-- C8: getFieldErrors after addFieldError is the old list with the new
message appended (append-only, order preserving); every ValidationError
thrown by any validate call carries at least one message; and a
SchemaType.validate call whose accumulated message list is empty
succeeds with true. -/
theorem validation_error_invariants :
    (∀ (e : ValidationError) (m : String),
        (e.addFieldError m).getFieldErrors = e.getFieldErrors ++ [m]) ∧
    (∀ (w : JSValidator) (v : JSValue) (e : ValidationError),
        validate w v = .error (.validation e) → e.getFieldErrors ≠ []) ∧
    (∀ (fs : Fields) (v : JSValue), allMsgs fs v = [] → validate (.schema fs) v = .ok true) := by
  refine ⟨fun e m => rfl, ?_, ?_⟩
  · intro w v e h
    exact validate_validation_ne_nil w v e h
  · intro fs v h
    rw [validate_schema_eq, if_pos h]

/-- C8 witness: a required String validator on null throws a
ValidationError whose message list is nonempty. -/
theorem validation_error_invariants_witness :
    validate (StringTypeCtor "" true) .null =
      .error (.validation (ValidationError.mk ["field is required"])) ∧
    (ValidationError.mk ["field is required"]).getFieldErrors ≠ [] :=
  ⟨rfl, validation_error_invariants.2.1 (StringTypeCtor "" true) .null
    (ValidationError.mk ["field is required"]) rfl⟩

/-- C9: validation is deterministic — the embedding of validate is a
pure function of the validator and the input value (the source writes
only the call-local `validated` object and freshly created
ValidationError instances, never `this` or the schema mapping), so any
two runs on the same validator and input agree exactly. -/
theorem validate_deterministic :
    ∀ (w : JSValidator) (v : JSValue) (r1 r2 : Except JSErr Bool),
      validate w v = r1 → validate w v = r2 → r1 = r2 := by
  intro w v r1 r2 h1 h2
  rw [← h1, ← h2]

/-- C9 witness: two runs on a concrete validator and value agree. -/
theorem validate_deterministic_witness :
    validate (StringTypeCtor "" true) (.str "x") = .ok true ∧
    (Except.ok true : Except JSErr Bool) = .ok true :=
  ⟨rfl, validate_deterministic (StringTypeCtor "" true) (.str "x")
    (.ok true) (.ok true) rfl rfl⟩

/-- C10: the EventType constructor mutates the caller-supplied mapping:
it assigns the "type" entry (overwriting any existing one) before
passing the very same mapping to the SchemaType constructor, so the
caller's mapping thereafter contains the discriminator ConstantType;
constructing two EventTypes from one mapping leaves the shared mapping
holding only the second event's discriminator, and the first EventType —
whose schema aliases that mapping — then rejects inputs carrying its own
event name. -/
theorem event_ctor_mutation :
    ∀ (nameA nameB : String) (m : Fields),
      (EventTypeCtor nameA m).1 = Fields.setProp m "type" (.constant (.str nameA)) ∧
      (EventTypeCtor nameA m).2 = .schema ((EventTypeCtor nameA m).1) ∧
      (EventTypeCtor nameB (EventTypeCtor nameA m).1).1 =
        Fields.setProp m "type" (.constant (.str nameB)) ∧
      Fields.lookup (EventTypeCtor nameB (EventTypeCtor nameA m).1).1 "type" =
        some (.constant (.str nameB)) ∧
      (∀ l : List (String × JSValue),
        (List.lookup "type" l).getD .undef = .str nameA → nameA ≠ nameB →
        ∃ e : ValidationError,
          validate (.schema (EventTypeCtor nameB (EventTypeCtor nameA m).1).1) (.obj l) =
            .error (.validation e) ∧
          ("type: unmatched constant type") ∈ e.getFieldErrors) := by
  intro nameA nameB m
  have h1 : (EventTypeCtor nameA m).1 = Fields.setProp m "type" (.constant (.str nameA)) := by
    simp [EventTypeCtor, constantTypeCtor_str]
  have h3 : (EventTypeCtor nameB (EventTypeCtor nameA m).1).1 =
      Fields.setProp m "type" (.constant (.str nameB)) := by
    rw [h1]
    simp [EventTypeCtor, constantTypeCtor_str, setProp_setProp]
  refine ⟨h1, rfl, h3, ?_, ?_⟩
  · rw [h3]
    exact setProp_lookup m "type" _
  · intro l hl hne
    rw [h3]
    apply discriminator_rejects
    rw [hl]
    intro hc
    injection hc with hc2
    exact hne hc2

/-- C10 witness: building the IM event and then the SMS event over the
IM event's own mapping leaves one shared mapping pinned to "SMS", and an
input typed "IM" is rejected through it. -/
theorem event_ctor_mutation_witness :
    (List.lookup "type" [("type", JSValue.str "IM")]).getD .undef = .str "IM" ∧
    ("IM" : String) ≠ "SMS" ∧
    ∃ e : ValidationError,
      validate (.schema (EventTypeCtor "SMS" (EventTypeCtor "IM" imFields).1).1)
          (.obj [("type", .str "IM")]) = .error (.validation e) ∧
        ("type: unmatched constant type") ∈ e.getFieldErrors :=
  ⟨rfl, by decide,
    (event_ctor_mutation "IM" "SMS" imFields).2.2.2.2 [("type", .str "IM")] rfl (by decide)⟩
